import Mathlib

/-!
Verification of the ots-viewer core (src/main.rs) against its specification.

The proof tree data model follows the `ots` crate types described in §3 of the
spec (`Step`, `StepData`, `Op`, `Attestation`); bytes are modelled as natural
numbers below 256 in well-formed data. The renderer `render_steps`, the
identity function `doc_id` / `doc_id_hash_recurse`, and the upload cache-write
path are translated from src/main.rs. Rust panics (out-of-range slicing,
indexing an empty vector) are modelled by `Option.none`. External opaque
collaborators (the SHA-256 primitive, the bitcoin transaction codec, the hex
display helper of the ots crate) are either parameters or spec-modelled
definitions, as marked.
-/

namespace Ots

/-- Operation payload, as in the ots crate (`ots::op::Op`): unary transforms
and the two concatenation transforms carrying a literal byte string. -/
inductive Op where
  | sha1
  | sha256
  | ripemd160
  | reverse
  | hexlify
  | append (newdata : List Nat)
  | prepend (newdata : List Nat)
  deriving DecidableEq, Repr

/-- Attestation payload, as in `ots::attestation::Attestation`. -/
inductive Attestation where
  | unknown (tag : List Nat) (data : List Nat)
  | pending (uri : String)
  | bitcoin (height : Nat)
  deriving DecidableEq, Repr

/-- Tagged payload of a step, as in `ots::timestamp::StepData`. -/
inductive StepData where
  | fork
  | op (o : Op)
  | attestation (a : Attestation)
  deriving DecidableEq, Repr

/-- A node of the proof tree, as in `ots::timestamp::Step`: an output byte
string, a tagged payload and an ordered list of children. -/
inductive Step where
  | mk (output : List Nat) (data : StepData) (next : List Step)

/-- Output bytes of a step. -/
def Step.output : Step → List Nat
  | .mk o _ _ => o

/-- Payload of a step. -/
def Step.data : Step → StepData
  | .mk _ d _ => d

/-- Children of a step. -/
def Step.next : Step → List Step
  | .mk _ _ n => n

/-- One display record produced by the renderer (`DisplayedStep` in
src/main.rs); the Rust field `prefix` is called `pfx` here and `class` is
called `cls`. -/
structure DisplayedStep where
  pfx : String
  result : String
  reason : String
  cls : String
  deriving DecidableEq, Repr

/-- Modelled from the spec: hexadecimal rendering of one hex digit, lowercase
(the `Hexed` display helper lives in the external ots crate, outside src/). -/
def hexDigit (n : Nat) : Char :=
  if n < 10 then Char.ofNat (48 + n) else Char.ofNat (87 + n)

/-- Modelled from the spec: character stream of the hexadecimal rendering of a
byte string, two lowercase digits per byte. -/
def hexChars : List Nat → List Char
  | [] => []
  | b :: rest => hexDigit (b / 16 % 16) :: hexDigit (b % 16) :: hexChars rest

/-- Modelled from the spec: hexadecimal rendering of a byte string (the
`Hexed` helper of the external ots crate): each byte as two lowercase hex
digits, concatenated. -/
def hexEncode (bs : List Nat) : String := String.mk (hexChars bs)

/-- Modelled from the spec: the `Display` name of a unary operation, used as
the record's reason ("the operation's name"); the implementation lives in the
external ots crate. No claim depends on the exact strings. -/
def opDisplay : Op → String
  | .sha1 => "SHA1"
  | .sha256 => "SHA256"
  | .ripemd160 => "RIPEMD160"
  | .reverse => "Reverse"
  | .hexlify => "Hexlify"
  | .append d => "Append(" ++ hexEncode d ++ ")"
  | .prepend d => "Prepend(" ++ hexEncode d ++ ")"

/-- The record pushed for a fork step (src/main.rs lines 75-80); `n` is the
number of children. -/
def fork_record (pfx : String) (n : Nat) : DisplayedStep :=
  { pfx := pfx, result := "Fork into <b>" ++ toString n ++ "</b> paths",
    reason := "Fork", cls := "step_fork" }

/-- The record pushed for a unary operation step (src/main.rs lines 92-100). -/
def unary_record (pfx : String) (o : Op) (output : List Nat) : DisplayedStep :=
  { pfx := pfx, result := "<tt>" ++ hexEncode output ++ "</tt>",
    reason := opDisplay o, cls := "step_op" }

/-- The record pushed for an Append step (src/main.rs lines 102-107); its
reason previews the literal's first three bytes. -/
def append_record (pfx : String) (prev_data newdata : List Nat) : DisplayedStep :=
  { pfx := pfx,
    result := "<tt>" ++ hexEncode prev_data ++
      "<font color=\"green\">" ++ hexEncode newdata ++ "</font></tt>",
    reason := "Append(" ++ hexEncode (newdata.take 3) ++ "...)",
    cls := "step_op" }

/-- The extra record pushed when an Append step's output deserializes as a
bitcoin transaction (src/main.rs lines 109-116). -/
def parse_record (pfx : String) (txh : String) : DisplayedStep :=
  { pfx := pfx, result := "Bitcoin transaction <b>" ++ txh ++ "</b>",
    reason := "(Parse TX)", cls := "step_parse" }

/-- The record pushed for a Prepend step (src/main.rs lines 118-125). -/
def prepend_record (pfx : String) (prev_data newdata : List Nat) : DisplayedStep :=
  { pfx := pfx,
    result := "<tt><font color=\"green\">" ++ hexEncode newdata ++
      "</font>" ++ hexEncode prev_data ++ "</tt>",
    reason := "Prepend(" ++ hexEncode (newdata.take 3) ++ "...)",
    cls := "step_op" }

/-- The terminal record pushed for an attestation step (src/main.rs lines
129-143); a Bitcoin attestation reports the byte-reversed prior accumulated
output as the claimed Merkle root. -/
def attestation_record (pfx : String) (a : Attestation) (prev_data : List Nat) :
    DisplayedStep :=
  let r : String :=
    match a with
    | Attestation.unknown tag data =>
        "Unknown attestation <b>" ++ hexEncode tag ++ "</b>/<b>" ++ hexEncode data ++ "</b>"
    | Attestation.pending uri =>
        "Pending attestation: server <b>" ++ uri ++ "</b>"
    | Attestation.bitcoin height =>
        "Merkle root <b>" ++ hexEncode prev_data.reverse ++
          "</b> of Bitcoin block <b>" ++ toString height ++ "</b>"
  { pfx := pfx, result := r, reason := "Attestation", cls := "step_attest" }

/-- The records pushed for an operation step (the inner match of src/main.rs
lines 91-126): the Rust code pushes them onto `vec` in this order; a short
Append/Prepend literal makes the 3-byte preview slice `newdata[0..3]` panic,
modelled as `none`. The transaction codec parameter `pt` is consulted only in
the Append arm. -/
def op_records (pt : List Nat → Option String) (o : Op)
    (output prev_data : List Nat) (pfx : String) : Option (List DisplayedStep) :=
  match o with
  | Op.sha1 | Op.sha256 | Op.ripemd160 | Op.reverse | Op.hexlify =>
      some [unary_record pfx o output]
  | Op.append newdata =>
      if 3 ≤ newdata.length then
        some (append_record pfx prev_data newdata ::
          (match pt output with
           | some txh => [parse_record pfx txh]
           | none => []))
      else none
  | Op.prepend newdata =>
      if 3 ≤ newdata.length then
        some [prepend_record pfx prev_data newdata]
      else none

mutual

/-- Translation of `render_steps` (src/main.rs lines 72-146). The `&mut Vec`
accumulator is threaded as the `vec` argument and returned; a Rust panic
(slicing `newdata[0..3]` with a short literal, or indexing `next[0]` of a
childless operation step) is `none`. The bitcoin transaction codec is the
external parameter `pt`: `pt output = some txh` means the output bytes
deserialize as a transaction whose displayed hash is `txh`. -/
def render_steps (pt : List Nat → Option String) (step : Step)
    (vec : List DisplayedStep) (prev_data : List Nat) (pfx : String) :
    Option (List DisplayedStep) :=
  match step with
  | Step.mk output sdata next =>
    match sdata with
    | StepData.fork =>
        render_fork_children pt next 0
          (vec ++ [fork_record pfx next.length]) prev_data pfx
    | StepData.op o =>
        match op_records pt o output prev_data pfx with
        | none => none
        | some recs =>
            match next with
            | [] => none
            | c :: _ => render_steps pt c (vec ++ recs) output pfx
    | StepData.attestation a =>
        some (vec ++ [attestation_record pfx a prev_data])

/-- The enumerated loop over a fork's children in `render_steps`
(src/main.rs lines 81-88): `n` is the 0-based loop counter. -/
def render_fork_children (pt : List Nat → Option String) (steps : List Step)
    (n : Nat) (vec : List DisplayedStep) (prev_data : List Nat) (pfx : String) :
    Option (List DisplayedStep) :=
  match steps with
  | [] => some vec
  | c :: rest =>
      let new_pfx := if pfx = "" then toString (n + 1) ++ " "
                     else pfx ++ "- " ++ toString (n + 1) ++ " "
      match render_steps pt c vec prev_data new_pfx with
      | none => none
      | some vec2 => render_fork_children pt rest (n + 1) vec2 prev_data pfx

end

mutual

/-- Translation of `doc_id_hash_recurse` (src/main.rs lines 195-200). The
running SHA-256 hasher is modelled by its fed byte stream: `hasher.input`
appends bytes; the step feeds its own output first, then recurses into its
children in stored order. -/
def doc_id_hash_recurse (step : Step) (hasher : List Nat) : List Nat :=
  match step with
  | Step.mk output _ next => doc_id_list next (hasher ++ output)

/-- The loop over `step.next` inside `doc_id_hash_recurse`. -/
def doc_id_list (steps : List Step) (hasher : List Nat) : List Nat :=
  match steps with
  | [] => hasher
  | s :: rest => doc_id_list rest (doc_id_hash_recurse s hasher)

end

/-- The timestamp carried by a detached timestamp file (`ots::timestamp`):
a start digest and the root step. -/
structure Timestamp where
  start_digest : List Nat
  first_step : Step

/-- A decoded .ots file (`ots::DetachedTimestampFile`): digest type tag and
the timestamp; only the timestamp is used by `doc_id`. -/
structure DetachedTimestampFile where
  digest_type : String
  timestamp : Timestamp

/-- Translation of `doc_id` (src/main.rs lines 203-210): feed the start digest,
then the whole tree via `doc_id_hash_recurse`, finalize the hash and
hex-encode it. The SHA-256 compression itself is an external opaque primitive,
passed as `sha256` (mapping the fed byte stream to the 32-byte digest). -/
def doc_id (sha256 : List Nat → List Nat) (dtf : DetachedTimestampFile) : String :=
  hexEncode (sha256 (doc_id_hash_recurse dtf.timestamp.first_step dtf.timestamp.start_digest))

mutual

/-- Spec-side definition (§4.2): the list of every visited step's output bytes
in pre-order depth-first traversal order — a step's output before its
children's, children in stored order. Used only to compare with the
source-translated `doc_id_hash_recurse`. -/
def preorder_outputs (step : Step) : List (List Nat) :=
  match step with
  | Step.mk output _ next => output :: preorder_outputs_list next

/-- Spec-side pre-order traversal of a list of sibling subtrees. -/
def preorder_outputs_list (steps : List Step) : List (List Nat) :=
  match steps with
  | [] => []
  | s :: rest => preorder_outputs s ++ preorder_outputs_list rest

end

/-- The cache (the `cache/` directory): a flat map from identifier to stored
byte contents, `none` when no file exists under that name. -/
def CacheState := String → Option (List Nat)

/-- Store `bytes` under `id` (creating or truncating-and-rewriting the file). -/
def cache_put (st : CacheState) (id : String) (bytes : List Nat) : CacheState :=
  fun k => if k = id then some bytes else st k

/-- Read the bytes stored under `id`, as the view/download handlers do when
they open `cache/<id>`. -/
def cache_get (st : CacheState) (id : String) : Option (List Nat) := st id

/-- Existence check for an identifier. -/
def cache_exists (st : CacheState) (id : String) : Bool := (st id).isSome

/-- Outcome of the `fs::File::create` call. -/
inductive CreateOutcome where
  | ok
  | err
  deriving DecidableEq

/-- Outcome of the `dtf.to_writer` call: success, or an I/O error after
`written` bytes of the serialization have already reached the file. -/
inductive WriteOutcome where
  | ok
  | err (written : Nat)
  deriving DecidableEq

/-- Model of the cache-write path of the upload handler (src/main.rs lines
234-250), after a successful decode: compute the id; `File::create` creates or
truncates the entry in place at the final name; `to_writer` either writes the
whole serialization or fails after a prefix; the handler answers with a
redirect string ("/" on failure, "/view/<id>" on success). File-system effects
are modelled as `CacheState` updates, and the outcomes of the two I/O calls
are explicit parameters. `serialized` is the byte serialization that
`dtf.to_writer` produces (the original proof bytes). -/
def upload (sha256 : List Nat → List Nat) (dtf : DetachedTimestampFile)
    (serialized : List Nat) (co : CreateOutcome) (wo : WriteOutcome)
    (st : CacheState) : CacheState × String :=
  let id := doc_id sha256 dtf
  match co with
  | CreateOutcome.err => (st, "/")
  | CreateOutcome.ok =>
      let st1 := cache_put st id []
      match wo with
      | WriteOutcome.ok => (cache_put st1 id serialized, "/view/" ++ id)
      | WriteOutcome.err k => (cache_put st1 id (serialized.take k), "/")

/-- Whether an operation's literal is long enough for the renderer's
3-byte preview slice (`newdata[0..3]`); unary operations carry no literal. -/
def op_lit_ok : Op → Bool
  | Op.append d => 3 ≤ d.length
  | Op.prepend d => 3 ≤ d.length
  | _ => true

mutual

/-- The §3 well-formedness invariants: an Attestation step has zero children,
an Operation step exactly one, a Fork step at least one. -/
def well_formed : Step → Bool
  | Step.mk _ StepData.fork next => decide (1 ≤ next.length) && well_formed_list next
  | Step.mk _ (StepData.op _) next => decide (next.length = 1) && well_formed_list next
  | Step.mk _ (StepData.attestation _) next => next.isEmpty

/-- Well-formedness of every tree in a list. -/
def well_formed_list : List Step → Bool
  | [] => true
  | s :: rest => well_formed s && well_formed_list rest

end

mutual

/-- Every Append/Prepend literal in the tree has at least 3 bytes. -/
def literals_ok : Step → Bool
  | Step.mk _ sdata next =>
      (match sdata with
       | StepData.op o => op_lit_ok o
       | _ => true) && literals_ok_list next

/-- Literal lengths of every tree in a list. -/
def literals_ok_list : List Step → Bool
  | [] => true
  | s :: rest => literals_ok s && literals_ok_list rest

end

/-- A terminal attestation leaf: zero children. -/
def att_leaf (a : Attestation) (output : List Nat) : Step :=
  Step.mk output (StepData.attestation a) []

/-- Whether an operation is one of the five unary transform kinds. -/
def is_unary : Op → Bool
  | Op.sha1 | Op.sha256 | Op.ripemd160 | Op.reverse | Op.hexlify => true
  | _ => false

/-- A linear chain of operations: each list entry is an operation together
with that step's output bytes; the chain ends in the given leaf. -/
def op_chain : List (Op × List Nat) → Step → Step
  | [], leaf => leaf
  | (o, out) :: rest, leaf => Step.mk out (StepData.op o) [op_chain rest leaf]

/-- The accumulated prior bytes reaching the end of a chain: the last
operation's output, or the initial prior bytes when the chain is empty. -/
def chain_prev : List (Op × List Nat) → List Nat → List Nat
  | [], prev => prev
  | (_, out) :: rest, _ => chain_prev rest out

/-- Spec-side definition (§4.1): the prefix given to the 1-based branch index
`i` of a fork rendered at the current prefix `pfx`. -/
def spec_branch_pfx (pfx : String) (i : Nat) : String :=
  if pfx = "" then toString i ++ " " else pfx ++ "- " ++ toString i ++ " "

/-- A transaction codec that never recognizes a transaction. -/
def pt_none : List Nat → Option String := fun _ => none

/-- A transaction codec that recognizes exactly the output byte string [9]. -/
def pt_tx9 : List Nat → Option String :=
  fun b => if b = [9] then some "deadbeef" else none

/-- A stand-in hash primitive (the identity on byte streams), usable where a
statement holds for every choice of hash. -/
def id_hash : List Nat → List Nat := fun l => l

/-- A constant hash primitive, used to witness the collision reduction. -/
def const_hash : List Nat → List Nat := fun _ => [0]

/-- A well-formed tree whose Append literal has fewer than 3 bytes. -/
def bad_append_tree : Step :=
  Step.mk [] (StepData.op (Op.append [170])) [att_leaf (Attestation.pending "srv") []]

/-- A well-formed tree with a fork, a long-literal Append and attestations. -/
def good_tree : Step :=
  Step.mk [5] StepData.fork
    [Step.mk [6] (StepData.op (Op.append [1, 2, 3])) [att_leaf (Attestation.bitcoin 10) [8]],
     att_leaf (Attestation.pending "cal") [7]]

/-- The empty cache: no identifier has been stored. -/
def empty_cache : CacheState := fun _ => none

/-- A small decoded timestamp used in the cache-write scenarios. -/
def c3_dtf : DetachedTimestampFile :=
  { digest_type := "sha256",
    timestamp := { start_digest := [3], first_step := att_leaf (Attestation.bitcoin 0) [7] } }

/-- The concrete tree of the §8 prefix-nesting example: a root fork with two
children whose second child is itself a fork with two children. -/
def c4_tree : Step :=
  Step.mk [0] StepData.fork
    [att_leaf (Attestation.pending "a") [1],
     Step.mk [0] StepData.fork
       [att_leaf (Attestation.pending "b") [2],
        att_leaf (Attestation.pending "c") [3]]]

/-- Two distinct well-formed attestation leaves with equal outputs. -/
def c5_tree_a : Step := att_leaf (Attestation.bitcoin 1) [1, 2]

/-- Same as `c5_tree_a` except for the attestation height. -/
def c5_tree_b : Step := att_leaf (Attestation.bitcoin 2) [1, 2]

/-- A decoded file around `c5_tree_a`. -/
def c5_dtf_a : DetachedTimestampFile :=
  { digest_type := "sha256", timestamp := { start_digest := [9], first_step := c5_tree_a } }

/-- A decoded file around `c5_tree_b`. -/
def c5_dtf_b : DetachedTimestampFile :=
  { digest_type := "sha256", timestamp := { start_digest := [9], first_step := c5_tree_b } }

/-- Like `c5_dtf_a` but with a different start digest (different fed stream). -/
def c5_dtf_c : DetachedTimestampFile :=
  { digest_type := "sha256", timestamp := { start_digest := [10], first_step := c5_tree_a } }

mutual

/-- The renderer only ever appends to the record vector: running it on
`u ++ vec` produces exactly `u ++` whatever running it on `vec` produces,
and fails exactly when the run on `vec` fails. -/
theorem render_steps_append (pt : List Nat → Option String) (step : Step)
    (u vec : List DisplayedStep) (prev_data : List Nat) (pfx : String) :
    render_steps pt step (u ++ vec) prev_data pfx =
      (render_steps pt step vec prev_data pfx).map (fun l => u ++ l) := by
  match step with
  | Step.mk output StepData.fork next =>
      simp only [render_steps]
      rw [List.append_assoc]
      exact render_fork_append pt next 0 u (vec ++ [fork_record pfx next.length]) prev_data pfx
  | Step.mk output (StepData.op o) next =>
      simp only [render_steps]
      cases h : op_records pt o output prev_data pfx with
      | none => simp
      | some recs =>
          cases next with
          | nil => simp
          | cons c tail =>
              simp only [List.append_assoc]
              exact render_steps_append pt c u (vec ++ recs) output pfx
  | Step.mk output (StepData.attestation a) next =>
      simp [render_steps, List.append_assoc]

/-- The fork-children loop likewise only appends to the record vector. -/
theorem render_fork_append (pt : List Nat → Option String) (steps : List Step)
    (n : Nat) (u vec : List DisplayedStep) (prev_data : List Nat) (pfx : String) :
    render_fork_children pt steps n (u ++ vec) prev_data pfx =
      (render_fork_children pt steps n vec prev_data pfx).map (fun l => u ++ l) := by
  match steps with
  | [] => simp [render_fork_children]
  | c :: rest =>
      simp only [render_fork_children]
      rw [render_steps_append pt c u vec prev_data _]
      cases h : render_steps pt c vec prev_data
          (if pfx = "" then toString (n + 1) ++ " " else pfx ++ "- " ++ toString (n + 1) ++ " ") with
      | none => simp
      | some vec2 =>
          simp only [Option.map_some']
          exact render_fork_append pt rest (n + 1) u vec2 prev_data pfx

end

mutual

/-- The byte stream fed by `doc_id_hash_recurse` is the already-fed stream
followed by the step's outputs in pre-order depth-first order. -/
theorem doc_id_hash_recurse_eq (step : Step) (hasher : List Nat) :
    doc_id_hash_recurse step hasher = hasher ++ (preorder_outputs step).flatten := by
  match step with
  | Step.mk output sdata next =>
      simp only [doc_id_hash_recurse, preorder_outputs, List.flatten_cons]
      rw [doc_id_list_eq next (hasher ++ output), List.append_assoc]

/-- The loop over siblings feeds their pre-order outputs left to right. -/
theorem doc_id_list_eq (steps : List Step) (hasher : List Nat) :
    doc_id_list steps hasher = hasher ++ (preorder_outputs_list steps).flatten := by
  match steps with
  | [] => simp [doc_id_list, preorder_outputs_list]
  | s :: rest =>
      simp only [doc_id_list, preorder_outputs_list]
      rw [doc_id_list_eq rest (doc_id_hash_recurse s hasher),
          doc_id_hash_recurse_eq s hasher, List.flatten_append, List.append_assoc]

end


theorem op_records_isSome (pt : List Nat → Option String) (o : Op)
    (output prev_data : List Nat) (pfx : String) (h : op_lit_ok o = true) :
    (op_records pt o output prev_data pfx).isSome = true := by
  cases o with
  | append d =>
      simp only [op_lit_ok, decide_eq_true_eq] at h
      simp only [op_records, if_pos h]
      cases pt output <;> simp
  | prepend d =>
      simp only [op_lit_ok, decide_eq_true_eq] at h
      simp [op_records, if_pos h]
  | sha1 => simp [op_records]
  | sha256 => simp [op_records]
  | ripemd160 => simp [op_records]
  | reverse => simp [op_records]
  | hexlify => simp [op_records]

mutual

theorem render_steps_total (pt : List Nat → Option String) (step : Step)
    (vec : List DisplayedStep) (prev_data : List Nat) (pfx : String)
    (hwf : well_formed step = true) (hlit : literals_ok step = true) :
    (render_steps pt step vec prev_data pfx).isSome = true := by
  match step with
  | Step.mk output StepData.fork next =>
      simp only [well_formed, Bool.and_eq_true] at hwf
      simp only [literals_ok, Bool.and_eq_true] at hlit
      simp only [render_steps]
      exact render_fork_total pt next 0 _ prev_data pfx hwf.2 hlit.2
  | Step.mk output (StepData.op o) next =>
      simp only [well_formed, Bool.and_eq_true] at hwf
      simp only [literals_ok, Bool.and_eq_true] at hlit
      simp only [render_steps]
      cases hrec : op_records pt o output prev_data pfx with
      | none =>
          have := op_records_isSome pt o output prev_data pfx hlit.1
          rw [hrec] at this
          simp at this
      | some recs =>
          cases next with
          | nil =>
              have := hwf.1
              simp at this
          | cons c tail =>
              have hc : well_formed c = true := by
                have := hwf.2
                simp only [well_formed_list, Bool.and_eq_true] at this
                exact this.1
              have hcl : literals_ok c = true := by
                have := hlit.2
                simp only [literals_ok_list, Bool.and_eq_true] at this
                exact this.1
              exact render_steps_total pt c (vec ++ recs) output pfx hc hcl
  | Step.mk output (StepData.attestation a) next =>
      simp [render_steps]

theorem render_fork_total (pt : List Nat → Option String) (steps : List Step)
    (n : Nat) (vec : List DisplayedStep) (prev_data : List Nat) (pfx : String)
    (hwf : well_formed_list steps = true) (hlit : literals_ok_list steps = true) :
    (render_fork_children pt steps n vec prev_data pfx).isSome = true := by
  match steps with
  | [] => simp [render_fork_children]
  | c :: rest =>
      simp only [well_formed_list, Bool.and_eq_true] at hwf
      simp only [literals_ok_list, Bool.and_eq_true] at hlit
      simp only [render_fork_children]
      cases h : render_steps pt c vec prev_data
          (if pfx = "" then toString (n + 1) ++ " " else pfx ++ "- " ++ toString (n + 1) ++ " ") with
      | none =>
          have := render_steps_total pt c vec prev_data
            (if pfx = "" then toString (n + 1) ++ " " else pfx ++ "- " ++ toString (n + 1) ++ " ")
            hwf.1 hlit.1
          rw [h] at this
          simp at this
      | some vec2 => exact render_fork_total pt rest (n + 1) vec2 prev_data pfx hwf.2 hlit.2

end

theorem render_steps_eq_nil (pt : List Nat → Option String) (step : Step)
    (vec : List DisplayedStep) (prev_data : List Nat) (pfx : String) :
    render_steps pt step vec prev_data pfx =
      (render_steps pt step [] prev_data pfx).map (fun l => vec ++ l) := by
  have h := render_steps_append pt step vec [] prev_data pfx
  rwa [List.append_nil] at h

theorem render_fork_children_eq (pt : List Nat → Option String) (steps : List Step)
    (n : Nat) (vec : List DisplayedStep) (prev_data : List Nat) (pfx : String) :
    render_fork_children pt steps n vec prev_data pfx =
      ((steps.enumFrom (n + 1)).mapM
          (fun p => render_steps pt p.2 [] prev_data (spec_branch_pfx pfx p.1))).map
        (fun ls => vec ++ ls.flatten) := by
  induction steps generalizing n vec with
  | nil => simp [render_fork_children, List.enumFrom, List.mapM, List.mapM.loop]
  | cons c rest ih =>
      simp only [render_fork_children, List.enumFrom, List.mapM_cons]
      have hpfx : (if pfx = "" then toString (n + 1) ++ " " else pfx ++ "- " ++ toString (n + 1) ++ " ")
          = spec_branch_pfx pfx (n + 1) := rfl
      rw [hpfx, render_steps_eq_nil pt c vec prev_data (spec_branch_pfx pfx (n + 1))]
      cases hE : render_steps pt c [] prev_data (spec_branch_pfx pfx (n + 1)) with
      | none => simp
      | some e =>
          simp only [Option.map_some']
          rw [ih (n + 1) (vec ++ e)]
          cases hM : (rest.enumFrom (n + 2)).mapM
              (fun p => render_steps pt p.2 [] prev_data (spec_branch_pfx pfx p.1)) with
          | none => simp [hM]
          | some es => simp [hM, List.append_assoc]

theorem render_chain (pt : List Nat → Option String) (l : List (Op × List Nat))
    (hl : ∀ p ∈ l, is_unary p.1 = true) (a : Attestation) (aout : List Nat)
    (vec : List DisplayedStep) (prev_data : List Nat) (pfx : String) :
    render_steps pt (op_chain l (att_leaf a aout)) vec prev_data pfx =
      some (vec ++ l.map (fun p => unary_record pfx p.1 p.2) ++
        [attestation_record pfx a (chain_prev l prev_data)]) := by
  induction l generalizing vec prev_data with
  | nil => simp [op_chain, att_leaf, render_steps, chain_prev]
  | cons p rest ih =>
      obtain ⟨o, out⟩ := p
      have ho : is_unary o = true := hl (o, out) (by simp)
      have hrec : op_records pt o out prev_data pfx = some [unary_record pfx o out] := by
        cases o <;> simp_all [op_records, is_unary]
      simp only [op_chain, render_steps, hrec]
      rw [ih (fun q hq => hl q (by simp [hq])) (vec ++ [unary_record pfx o out]) out]
      simp [chain_prev, List.append_assoc]

theorem hexDigit_inj : ∀ n < 16, ∀ m < 16, hexDigit n = hexDigit m → n = m := by decide

theorem hexChars_inj : ∀ as bs : List Nat, (∀ x ∈ as, x < 256) → (∀ x ∈ bs, x < 256) →
    hexChars as = hexChars bs → as = bs := by
  intro as
  induction as with
  | nil =>
      intro bs _ _ h
      cases bs with
      | nil => rfl
      | cons b bs => simp [hexChars] at h
  | cons a as ih =>
      intro bs ha hb h
      cases bs with
      | nil => simp [hexChars] at h
      | cons b bs =>
          simp only [hexChars, List.cons.injEq] at h
          obtain ⟨h1, h2, h3⟩ := h
          have ha' : a < 256 := ha a (by simp)
          have hb' : b < 256 := hb b (by simp)
          have e1 : a / 16 % 16 = b / 16 % 16 :=
            hexDigit_inj _ (Nat.mod_lt _ (by norm_num)) _ (Nat.mod_lt _ (by norm_num)) h1
          have e2 : a % 16 = b % 16 :=
            hexDigit_inj _ (Nat.mod_lt _ (by norm_num)) _ (Nat.mod_lt _ (by norm_num)) h2
          have hab : a = b := by omega
          subst hab
          rw [ih bs (fun x hx => ha x (by simp [hx])) (fun x hx => hb x (by simp [hx])) h3]

theorem hexEncode_inj (as bs : List Nat) (ha : ∀ x ∈ as, x < 256) (hb : ∀ x ∈ bs, x < 256)
    (h : hexEncode as = hexEncode bs) : as = bs := by
  have hd : hexChars as = hexChars bs := by
    have := congrArg String.data h
    simpa [hexEncode] using this
  exact hexChars_inj as bs ha hb hd

/-- A fork step rendered at prefix `pfx` is the fork record followed by the
flattened renderings of the children, child `i` (1-based) at
`spec_branch_pfx pfx i`. -/
theorem render_fork_mapM (pt : List Nat → Option String) (output : List Nat)
    (children : List Step) (vec : List DisplayedStep) (prev_data : List Nat)
    (pfx : String) :
    render_steps pt (Step.mk output StepData.fork children) vec prev_data pfx =
      ((children.enumFrom 1).mapM
          (fun p => render_steps pt p.2 [] prev_data (spec_branch_pfx pfx p.1))).map
        (fun ls => vec ++ fork_record pfx children.length :: ls.flatten) := by
  simp only [render_steps]
  rw [render_fork_children_eq]
  norm_num

/-- Rendering a two-child fork: one fork record, then the two subtree
renderings at the branch prefixes for indices 1 and 2. -/
theorem render_fork2 (pt : List Nat → Option String) (o : List Nat) (x y : Step)
    (vec : List DisplayedStep) (prev_data : List Nat) (pfx : String)
    (ex ey : List DisplayedStep)
    (hx : render_steps pt x [] prev_data (spec_branch_pfx pfx 1) = some ex)
    (hy : render_steps pt y [] prev_data (spec_branch_pfx pfx 2) = some ey) :
    render_steps pt (Step.mk o StepData.fork [x, y]) vec prev_data pfx =
      some (vec ++ fork_record pfx 2 :: (ex ++ ey)) := by
  rw [render_fork_mapM]
  simp only [List.enumFrom, List.mapM_cons, List.mapM_nil, hx, hy]
  simp [List.append_assoc]

/-- C1 counterexample: a ProofModel satisfying all three §3 invariants whose
Append literal is a single byte makes the renderer hit the `newdata[0..3]`
slice panic (modelled as `none`), so the renderer is not total for literals
shorter than 3 bytes. -/
theorem c1_counterexample :
    well_formed bad_append_tree = true ∧
    render_steps pt_none bad_append_tree [] [] "" = none := by
  exact ⟨by decide, rfl⟩

/-- C1 (amended): on every ProofModel satisfying the §3 invariants in which,
additionally, every Append/Prepend literal is at least 3 bytes long, the step
renderer is total: it always returns a record list and never fails, for any
byte contents of outputs and literals and any transaction codec. -/
theorem c1_amended_renderer_total (pt : List Nat → Option String) (step : Step)
    (vec : List DisplayedStep) (prev_data : List Nat) (pfx : String)
    (hwf : well_formed step = true) (hlit : literals_ok step = true) :
    (render_steps pt step vec prev_data pfx).isSome = true :=
  render_steps_total pt step vec prev_data pfx hwf hlit

/-- C1 witness: the amended totality theorem applied to a concrete well-formed
tree with 3-byte literals. -/
theorem c1_witness :
    well_formed good_tree = true ∧ literals_ok good_tree = true ∧
    (render_steps pt_none good_tree [] [0] "").isSome = true :=
  ⟨by decide, by decide,
    c1_amended_renderer_total pt_none good_tree [] [0] "" (by decide) (by decide)⟩

/-- C2: the identifier computed by `doc_id` is the hex encoding of one SHA-256
digest of the byte stream made of the start digest followed by the output
bytes of every step in pre-order depth-first order (a step's output before its
children's, children in stored order), for any hash primitive. -/
theorem c2_doc_id_preorder (sha256 : List Nat → List Nat) (dtf : DetachedTimestampFile) :
    doc_id sha256 dtf =
      hexEncode (sha256 (dtf.timestamp.start_digest ++
        (preorder_outputs dtf.timestamp.first_step).flatten)) := by
  unfold doc_id
  rw [doc_id_hash_recurse_eq]

/-- C3 counterexample: when the proof-byte write fails partway (here after 2
of 4 bytes), the upload reports failure (redirect to "/"), but the cache does
not behave as if the put never happened: the identifier, unset before the
upload, now stores the partial prefix and is readable. -/
theorem c3_counterexample :
    (upload id_hash c3_dtf [1, 2, 3, 4] CreateOutcome.ok (WriteOutcome.err 2) empty_cache).2 = "/" ∧
    cache_get empty_cache (doc_id id_hash c3_dtf) = none ∧
    cache_get (upload id_hash c3_dtf [1, 2, 3, 4] CreateOutcome.ok (WriteOutcome.err 2) empty_cache).1
      (doc_id id_hash c3_dtf) = some [1, 2] := by
  refine ⟨rfl, rfl, ?_⟩
  simp [upload, cache_get, cache_put]

/-- C3 (amended): when the proof-byte write fails partway, the upload reports
failure (it answers the safe default redirect "/" and never exposes the
identifier's view page), but the cache is left with the partially-written
prefix stored and readable under the computed identifier. -/
theorem c3_amended_partial_write (sha256 : List Nat → List Nat)
    (dtf : DetachedTimestampFile) (serialized : List Nat) (k : Nat) (st : CacheState) :
    (upload sha256 dtf serialized CreateOutcome.ok (WriteOutcome.err k) st).2 = "/" ∧
    cache_exists (upload sha256 dtf serialized CreateOutcome.ok (WriteOutcome.err k) st).1
      (doc_id sha256 dtf) = true ∧
    cache_get (upload sha256 dtf serialized CreateOutcome.ok (WriteOutcome.err k) st).1
      (doc_id sha256 dtf) = some (serialized.take k) := by
  refine ⟨rfl, ?_, ?_⟩ <;> simp [upload, cache_exists, cache_get, cache_put]

/-- C4 counterexample: rendering the root-fork/nested-fork tree shows the leaf
record under the second child's second branch carries the prefix "2 - 2 "
(the nested prefix keeps the trailing space of "2 " before the dash), which
differs from the claimed "2- 2 ". -/
theorem c4_counterexample :
    render_steps pt_none c4_tree [] [9] "" =
      some [fork_record "" 2,
            attestation_record "1 " (Attestation.pending "a") [9],
            fork_record "2 " 2,
            attestation_record "2 - 1 " (Attestation.pending "b") [9],
            attestation_record "2 - 2 " (Attestation.pending "c") [9]] ∧
    (attestation_record "2 - 2 " (Attestation.pending "c") [9]).pfx = "2 - 2 " ∧
    ("2 - 2 " : String) ≠ "2- 2 " := by
  refine ⟨rfl, rfl, by decide⟩

/-- C4 (amended): in a tree whose root is a Fork with 2 children and whose
second child is a Fork with 2 children, the second child's second branch is
rendered under the prefix "2 - 2 " (not "2- 2 "), and when that branch is a
fork-free chain of operations ending in an attestation, every record it
contributes — in particular every leaf record — carries exactly "2 - 2 ". -/
theorem c4_amended_nested_prefix (pt : List Nat → Option String) (c1 d1 : Step)
    (o1 o2 : List Nat) (l : List (Op × List Nat)) (a : Attestation)
    (aout prev_data : List Nat) (e1 e2 : List DisplayedStep)
    (hl : ∀ p ∈ l, is_unary p.1 = true)
    (h1 : render_steps pt c1 [] prev_data "1 " = some e1)
    (h2 : render_steps pt d1 [] prev_data "2 - 1 " = some e2) :
    (render_steps pt (Step.mk o1 StepData.fork
        [c1, Step.mk o2 StepData.fork [d1, op_chain l (att_leaf a aout)]])
        [] prev_data "" =
      some (fork_record "" 2 :: e1 ++ fork_record "2 " 2 :: e2 ++
        (l.map (fun p => unary_record "2 - 2 " p.1 p.2) ++
          [attestation_record "2 - 2 " a (chain_prev l prev_data)]))) ∧
    (∀ r ∈ (l.map (fun p => unary_record "2 - 2 " p.1 p.2) ++
        [attestation_record "2 - 2 " a (chain_prev l prev_data)]), r.pfx = "2 - 2 ") := by
  constructor
  · have hch : render_steps pt (op_chain l (att_leaf a aout)) [] prev_data "2 - 2 " =
        some ([] ++ l.map (fun p => unary_record "2 - 2 " p.1 p.2) ++
          [attestation_record "2 - 2 " a (chain_prev l prev_data)]) :=
      render_chain pt l hl a aout [] prev_data "2 - 2 "
    rw [List.nil_append] at hch
    have hinner : render_steps pt (Step.mk o2 StepData.fork [d1, op_chain l (att_leaf a aout)])
        [] prev_data "2 " =
        some ([] ++ fork_record "2 " 2 :: (e2 ++
          (l.map (fun p => unary_record "2 - 2 " p.1 p.2) ++
            [attestation_record "2 - 2 " a (chain_prev l prev_data)]))) := by
      refine render_fork2 pt o2 d1 _ [] prev_data "2 " e2 _ ?_ ?_
      · rw [show spec_branch_pfx "2 " 1 = "2 - 1 " from rfl]
        exact h2
      · rw [show spec_branch_pfx "2 " 2 = "2 - 2 " from rfl]
        rw [hch]
    rw [List.nil_append] at hinner
    have hroot := render_fork2 pt o1 c1
      (Step.mk o2 StepData.fork [d1, op_chain l (att_leaf a aout)])
      [] prev_data "" e1 _ (by rw [show spec_branch_pfx "" 1 = "1 " from rfl]; exact h1)
      (by rw [show spec_branch_pfx "" 2 = "2 " from rfl]; exact hinner)
    rw [hroot]
    simp [List.append_assoc]
  · intro r hr
    rcases List.mem_append.1 hr with h | h
    · obtain ⟨p, -, rfl⟩ := List.mem_map.1 h
      rfl
    · rw [List.mem_singleton] at h
      subst h
      rfl

/-- C4 witness: the amended theorem applied to a concrete tree whose branches
are attestation leaves and whose second-second branch is a one-operation
chain. -/
theorem c4_witness :
    (∀ p ∈ ([(Op.sha1, [6])] : List (Op × List Nat)), is_unary p.1 = true) ∧
    (render_steps pt_none (att_leaf (Attestation.pending "a") [1]) [] [9] "1 " =
      some [attestation_record "1 " (Attestation.pending "a") [9]]) ∧
    (render_steps pt_none (att_leaf (Attestation.pending "b") [2]) [] [9] "2 - 1 " =
      some [attestation_record "2 - 1 " (Attestation.pending "b") [9]]) ∧
    ((render_steps pt_none (Step.mk [0] StepData.fork
        [att_leaf (Attestation.pending "a") [1],
         Step.mk [0] StepData.fork
           [att_leaf (Attestation.pending "b") [2],
            op_chain [(Op.sha1, [6])] (att_leaf (Attestation.bitcoin 4) [])]])
        [] [9] "" =
      some (fork_record "" 2 :: [attestation_record "1 " (Attestation.pending "a") [9]] ++
        fork_record "2 " 2 :: [attestation_record "2 - 1 " (Attestation.pending "b") [9]] ++
        (([(Op.sha1, [6])] : List (Op × List Nat)).map (fun p => unary_record "2 - 2 " p.1 p.2) ++
          [attestation_record "2 - 2 " (Attestation.bitcoin 4)
            (chain_prev [(Op.sha1, [6])] [9])]))) ∧
    (∀ r ∈ (([(Op.sha1, [6])] : List (Op × List Nat)).map
          (fun p => unary_record "2 - 2 " p.1 p.2) ++
        [attestation_record "2 - 2 " (Attestation.bitcoin 4)
          (chain_prev [(Op.sha1, [6])] [9])]), r.pfx = "2 - 2 ")) :=
  ⟨by decide, rfl, rfl,
    c4_amended_nested_prefix pt_none
      (att_leaf (Attestation.pending "a") [1]) (att_leaf (Attestation.pending "b") [2])
      [0] [0] [(Op.sha1, [6])] (Attestation.bitcoin 4) [] [9]
      [attestation_record "1 " (Attestation.pending "a") [9]]
      [attestation_record "2 - 1 " (Attestation.pending "b") [9]]
      (by decide) rfl rfl⟩

/-- C5 counterexample: two distinct well-formed proof trees (differing only in
the Bitcoin attestation height) feed the identical byte stream to the hash,
so `doc_id` returns identical identifiers with certainty — not merely up to
hash collisions (shown here with the identity stand-in for the primitive; by
C2 the identifier depends only on the fed stream, so this holds for every
hash). -/
theorem c5_counterexample :
    c5_tree_a ≠ c5_tree_b ∧
    well_formed c5_tree_a = true ∧ well_formed c5_tree_b = true ∧
    doc_id_hash_recurse c5_tree_a [9] = doc_id_hash_recurse c5_tree_b [9] ∧
    doc_id id_hash c5_dtf_a = doc_id id_hash c5_dtf_b := by
  refine ⟨?_, rfl, rfl, rfl, rfl⟩
  intro h
  simp only [c5_tree_a, c5_tree_b, att_leaf, Step.mk.injEq] at h
  obtain ⟨-, h2, -⟩ := h
  simp at h2

/-- C5 (amended): identifiers can only collide for trees that feed the same
byte stream (start digest followed by pre-order outputs) to the hash; for two
files whose fed streams differ, equal identifiers force a genuine collision of
the hash primitive (given that the primitive outputs byte values below 256, as
a 32-byte digest does). Trees differing only in payloads, attestation fields
or shape while feeding the same stream collide with certainty. -/
theorem c5_amended_collision_reduction (sha256 : List Nat → List Nat)
    (a b : DetachedTimestampFile)
    (hfeed : doc_id_hash_recurse a.timestamp.first_step a.timestamp.start_digest ≠
      doc_id_hash_recurse b.timestamp.first_step b.timestamp.start_digest)
    (hba : ∀ x ∈ sha256 (doc_id_hash_recurse a.timestamp.first_step a.timestamp.start_digest),
      x < 256)
    (hbb : ∀ x ∈ sha256 (doc_id_hash_recurse b.timestamp.first_step b.timestamp.start_digest),
      x < 256)
    (hid : doc_id sha256 a = doc_id sha256 b) :
    ∃ x y, x ≠ y ∧ sha256 x = sha256 y := by
  refine ⟨_, _, hfeed, ?_⟩
  unfold doc_id at hid
  exact hexEncode_inj _ _ hba hbb hid

/-- C5 witness: the collision reduction applied to two files with different
fed streams under the constant hash, which indeed has collisions. -/
theorem c5_witness :
    (doc_id_hash_recurse c5_dtf_a.timestamp.first_step c5_dtf_a.timestamp.start_digest ≠
      doc_id_hash_recurse c5_dtf_c.timestamp.first_step c5_dtf_c.timestamp.start_digest) ∧
    (∃ x y, x ≠ y ∧ const_hash x = const_hash y) :=
  ⟨by decide,
    c5_amended_collision_reduction const_hash c5_dtf_a c5_dtf_c
      (by decide) (by decide) (by decide) rfl⟩

/-- C6: a Bitcoin attestation step reports the byte-reversal of the prior
accumulated bytes (not its own output) as the claimed Merkle root, alongside
the height; in particular, with prior bytes 0x01..0x20 and height 500000 it
reports 0x20..0x01 and 500000. -/
theorem c6_bitcoin_reversed_root :
    (∀ (pt : List Nat → Option String) (out : List Nat) (next : List Step)
        (vec : List DisplayedStep) (prev_data : List Nat) (pfx : String) (height : Nat),
      render_steps pt (Step.mk out (StepData.attestation (Attestation.bitcoin height)) next)
          vec prev_data pfx =
        some (vec ++ [{ pfx := pfx,
                        result := "Merkle root <b>" ++ hexEncode prev_data.reverse ++
                          "</b> of Bitcoin block <b>" ++ toString height ++ "</b>",
                        reason := "Attestation", cls := "step_attest" }])) ∧
    render_steps pt_none
        (Step.mk [] (StepData.attestation (Attestation.bitcoin 500000)) []) []
        [1, 2, 3, 4, 5, 6, 7, 8, 9, 10, 11, 12, 13, 14, 15, 16, 17, 18, 19, 20,
         21, 22, 23, 24, 25, 26, 27, 28, 29, 30, 31, 32] "" =
      some [{ pfx := "",
              result := "Merkle root <b>" ++
                hexEncode [32, 31, 30, 29, 28, 27, 26, 25, 24, 23, 22, 21, 20, 19, 18, 17,
                           16, 15, 14, 13, 12, 11, 10, 9, 8, 7, 6, 5, 4, 3, 2, 1] ++
                "</b> of Bitcoin block <b>500000</b>",
              reason := "Attestation", cls := "step_attest" }] := by
  constructor
  · intro pt out next vec prev_data pfx height
    simp [render_steps, attestation_record]
  · rfl

/-- C7 counterexample: an Append step whose 1-byte literal triggers the
`newdata[0..3]` slice panic: although its output does not deserialize as a
transaction (the codec returns none), rendering fails instead of emitting
exactly 1 record. -/
theorem c7_counterexample :
    pt_none (Step.output bad_append_tree) = none ∧
    render_steps pt_none bad_append_tree [] [] "" = none :=
  ⟨rfl, rfl⟩

/-- C7 (amended): for an Append step whose literal has at least 3 bytes, the
step contributes the Append record followed immediately by the parse-hint
record exactly when its own output deserializes as a transaction, and only
the Append record otherwise, before rendering continues into the child with
the step's output as new prior bytes; a Prepend step with a literal of at
least 3 bytes contributes exactly 1 record and never consults the
transaction codec. -/
theorem c7_amended_append_tx (pt : List Nat → Option String)
    (out nd prev_data : List Nat) (c : Step) (tail : List Step)
    (vec : List DisplayedStep) (pfx : String) (hnd : 3 ≤ nd.length) :
    (render_steps pt (Step.mk out (StepData.op (Op.append nd)) (c :: tail)) vec prev_data pfx =
      render_steps pt c (vec ++ append_record pfx prev_data nd ::
        (match pt out with
         | some txh => [parse_record pfx txh]
         | none => [])) out pfx) ∧
    (render_steps pt (Step.mk out (StepData.op (Op.prepend nd)) (c :: tail)) vec prev_data pfx =
      render_steps pt c (vec ++ [prepend_record pfx prev_data nd]) out pfx) := by
  constructor
  · simp only [render_steps, op_records, if_pos hnd]
  · simp only [render_steps, op_records, if_pos hnd]

/-- C7 witness: the amended theorem applied to a concrete Append/Prepend step
with a 3-byte literal and a codec that recognizes the output [9]. -/
theorem c7_witness :
    (3 ≤ ([1, 2, 3] : List Nat).length) ∧
    ((render_steps pt_tx9 (Step.mk [9] (StepData.op (Op.append [1, 2, 3]))
        [att_leaf (Attestation.pending "s") []]) [] [5] "" =
      render_steps pt_tx9 (att_leaf (Attestation.pending "s") [])
        ([] ++ append_record "" [5] [1, 2, 3] ::
          (match pt_tx9 [9] with
           | some txh => [parse_record "" txh]
           | none => [])) [9] "") ∧
    (render_steps pt_tx9 (Step.mk [9] (StepData.op (Op.prepend [1, 2, 3]))
        [att_leaf (Attestation.pending "s") []]) [] [5] "" =
      render_steps pt_tx9 (att_leaf (Attestation.pending "s") [])
        ([] ++ [prepend_record "" [5] [1, 2, 3]]) [9] "")) :=
  ⟨by decide,
    c7_amended_append_tx pt_tx9 [9] [1, 2, 3] [5]
      (att_leaf (Attestation.pending "s") []) [] [] "" (by decide)⟩

/-- C8: a Fork step with N children rendered at prefix P emits exactly one
fork-summary record at P followed by the full renderings of the N subtrees in
child order, the 1-based child i rendered with the new prefix "i " when P is
empty and P ++ "- " ++ "i " otherwise (`spec_branch_pfx`); failure of any
subtree fails the whole rendering. -/
theorem c8_fork_structure (pt : List Nat → Option String) (output : List Nat)
    (children : List Step) (vec : List DisplayedStep) (prev_data : List Nat)
    (pfx : String) :
    render_steps pt (Step.mk output StepData.fork children) vec prev_data pfx =
      ((children.enumFrom 1).mapM
          (fun p => render_steps pt p.2 [] prev_data (spec_branch_pfx pfx p.1))).map
        (fun ls => vec ++ fork_record pfx children.length :: ls.flatten) :=
  render_fork_mapM pt output children vec prev_data pfx

/-- C9: a chain of K unary operations ending in an attestation, rendered from
the empty prefix, produces exactly K operation records — one per operation,
each showing the hex rendering of that step's own output in the record's
markup — followed by the terminal attestation record, and every record's
prefix is the empty string. -/
theorem c9_unary_chain (pt : List Nat → Option String) (l : List (Op × List Nat))
    (hl : ∀ p ∈ l, is_unary p.1 = true) (a : Attestation) (aout prev_data : List Nat) :
    render_steps pt (op_chain l (att_leaf a aout)) [] prev_data "" =
      some (l.map (fun p => unary_record "" p.1 p.2) ++
        [attestation_record "" a (chain_prev l prev_data)]) := by
  have h := render_chain pt l hl a aout [] prev_data ""
  simpa using h

/-- C9 witness: the chain theorem applied to a concrete two-operation chain. -/
theorem c9_witness :
    (∀ p ∈ ([(Op.sha256, [4]), (Op.reverse, [5])] : List (Op × List Nat)),
      is_unary p.1 = true) ∧
    render_steps pt_none
        (op_chain [(Op.sha256, [4]), (Op.reverse, [5])] (att_leaf (Attestation.bitcoin 3) []))
        [] [9] "" =
      some (([(Op.sha256, [4]), (Op.reverse, [5])] : List (Op × List Nat)).map
          (fun p => unary_record "" p.1 p.2) ++
        [attestation_record "" (Attestation.bitcoin 3)
          (chain_prev [(Op.sha256, [4]), (Op.reverse, [5])] [9])]) :=
  ⟨by decide, c9_unary_chain pt_none _ (by decide) (Attestation.bitcoin 3) [] [9]⟩

/-- C10: the renderer only appends to the record vector: a call on any
starting vector produces exactly that vector followed by the records the same
call emits from the empty vector (and fails exactly when that run fails, in
which case there is no post-state, matching the Rust panic). Records already
present are never modified, reordered or removed. -/
theorem c10_append_only (pt : List Nat → Option String) (step : Step)
    (vec : List DisplayedStep) (prev_data : List Nat) (pfx : String) :
    render_steps pt step vec prev_data pfx =
      (render_steps pt step [] prev_data pfx).map (fun l => vec ++ l) :=
  render_steps_eq_nil pt step vec prev_data pfx

end Ots
